import Mathlib

/-!
Verification of the Semantic Chunking & Embedding-Index Pipeline of the
`dm` repository (files `app/services/chunky.py` and
`app/services/vectore_store_service.py`), by shallow embedding into Lean.

Conventions used throughout:
* Python strings are Lean `String`s; `len` is `String.length` (both count
  characters).
* Python `int` is `Int` (or `Nat` where the source value is an index or a
  count that is manifestly non-negative).
* Python `float` is `ℚ`: every float literal and operation appearing in the
  embedded code (`0.8`, `min`, `+`, `/`) is exact on the values involved, so
  rational arithmetic is a faithful model of the score computations.
* Python dicts carrying string keys are association lists with
  insertion-order update semantics (`pyDictUpdate`).
* The CPython `ast` parser, the `hashlib.md5` digest and the sentence
  embedding are external to the repository and are taken as parameters
  (`parse`, `md5`, `dist`) of the embedded functions.
* The `while` loop of `ChunkingStrategy.create_chunks` can loop forever
  (its index can stay in place across iterations), so it is embedded with
  explicit fuel; `none` models non-termination.
-/

namespace DM

/-! ### String helpers mirroring the Python string operations used -/

/-- `content.split('\n')` on the character list: splitting on `'\n'` keeps
empty segments, and the empty string yields one empty segment, exactly as in
Python. -/
def splitNL : List Char → List (List Char)
  | [] => [[]]
  | c :: rest =>
    if c = '\n' then [] :: splitNL rest
    else
      match splitNL rest with
      | [] => [[c]]
      | g :: gs => (c :: g) :: gs

/-- `'\n'.join(parts)` on character lists. -/
def joinNLC : List (List Char) → List Char
  | [] => []
  | [x] => x
  | x :: xs => x ++ '\n' :: joinNLC xs

/-- `content.split('\n')` as the Python `str.split` used at chunky.py:262. -/
def splitLines (s : String) : List String :=
  (splitNL s.data).map (fun g => ⟨g⟩)

/-- `'\n'.join(lines)` as used in `create_chunks` / `_create_chunk`. -/
def joinNL : List String → String
  | [] => ""
  | [x] => x
  | x :: xs => x ++ "\n" ++ joinNL xs

theorem splitNL_ne_nil (cs : List Char) : splitNL cs ≠ [] := by
  cases cs with
  | nil => simp [splitNL]
  | cons c rest =>
    simp only [splitNL]
    split
    · simp
    · cases h : splitNL rest <;> simp

/-- Splitting and re-joining on newlines is the identity: the loop of
`create_chunks` works on `content.split('\n')` and re-joins with
`'\n'.join`. -/
theorem joinNLC_splitNL (cs : List Char) : joinNLC (splitNL cs) = cs := by
  induction cs with
  | nil => rfl
  | cons c rest ih =>
    simp only [splitNL]
    by_cases hc : c = '\n'
    · subst hc
      simp only [if_pos rfl]
      have hne := splitNL_ne_nil rest
      cases h : splitNL rest with
      | nil => exact absurd h hne
      | cons g gs =>
        rw [h] at ih
        simp [joinNLC, ih]
    · rw [if_neg hc]
      have hne := splitNL_ne_nil rest
      cases h : splitNL rest with
      | nil => exact absurd h hne
      | cons g gs =>
        rw [h] at ih
        cases gs with
        | nil => simpa [joinNLC] using congrArg (c :: ·) ih
        | cons g' gs' => simpa [joinNLC] using congrArg (c :: ·) ih

/-- Python whitespace for `str.strip` / `str.lstrip` (ASCII; the inputs in
this development contain no exotic Unicode whitespace). -/
def pyWS (c : Char) : Bool :=
  c = ' ' ∨ c = '\t' ∨ c = '\n' ∨ c = '\r' ∨ c = '\x0b' ∨ c = '\x0c'

/-- `line.strip()` (chunky.py:350). -/
def pyStrip (s : String) : String :=
  ⟨((s.data.dropWhile pyWS).reverse.dropWhile pyWS).reverse⟩

/-- `_get_indentation_level`: `len(line) - len(line.lstrip())`
(chunky.py:382-384). -/
def indentationLevel (line : String) : Nat :=
  line.length - (line.data.dropWhile pyWS).length

/-- Python `dict.update` / `{**d, k: v}` semantics on an insertion-ordered
association list: existing keys are overwritten in place, new keys are
appended. -/
def pyDictUpdate (d : List (String × String)) (kvs : List (String × String)) :
    List (String × String) :=
  kvs.foldl
    (fun acc kv =>
      if acc.any (fun p => p.1 = kv.1) then
        acc.map (fun p => if p.1 = kv.1 then kv else p)
      else acc ++ [kv])
    d

/-- Dict lookup (`d.get(k)`). -/
def pyDictGet (d : List (String × String)) (k : String) : Option String :=
  (d.find? (fun p => p.1 = k)).map (·.2)

/-! ### A small regular-expression engine

The chunker decides boundaries with `re.search(pattern, line)`
(chunky.py:331-339) and the language classifier with two further
`re.search` calls (chunky.py:375-377).  Only the *existence* of a match is
ever used for control flow (the captured group feeds a metadata key that no
claim mentions), so the patterns are embedded as regular expressions over
character classes and matched with Brzozowski derivatives; greedy vs lazy
repetition does not change match existence. -/

/-- The character classes appearing in the source patterns. -/
inductive CharClass where
  | lit (c : Char)     -- a literal character
  | anyNotNL           -- `.`  (any character except newline)
  | anyAll             -- `[\s\S]`
  | space              -- `\s`
  | word               -- `\w`  (ASCII reading of [a-zA-Z0-9_])
  | alphaUnd           -- `[a-zA-Z_]`
  | notRParen          -- `[^)]`
  | upperAlpha         -- `[A-Z]`
  | quote              -- `['"]`
  deriving DecidableEq, Repr

def CharClass.matches : CharClass → Char → Bool
  | .lit c', c => c = c'
  | .anyNotNL, c => ¬ c = '\n'
  | .anyAll, _ => true
  | .space, c => pyWS c
  | .word, c => c.isAlpha ∨ c.isDigit ∨ c = '_'
  | .alphaUnd, c => c.isAlpha ∨ c = '_'
  | .notRParen, c => ¬ c = ')'
  | .upperAlpha, c => 'A' ≤ c ∧ c ≤ 'Z'
  | .quote, c => c = Char.ofNat 39 ∨ c = '"'

inductive Regex where
  | fail
  | eps
  | cls (cc : CharClass)
  | cat (a b : Regex)
  | alt (a b : Regex)
  | star (a : Regex)
  deriving DecidableEq, Repr

namespace Regex

/-- Smart concatenation, collapsing `fail`/`eps`, keeps derivatives small. -/
def scat : Regex → Regex → Regex
  | fail, _ => fail
  | _, fail => fail
  | eps, b => b
  | a, eps => a
  | a, b => cat a b

/-- Smart alternation. -/
def salt : Regex → Regex → Regex
  | fail, b => b
  | a, fail => a
  | a, b => alt a b

def nullable : Regex → Bool
  | fail => false
  | eps => true
  | cls _ => false
  | cat a b => nullable a && nullable b
  | alt a b => nullable a || nullable b
  | star _ => true

/-- Brzozowski derivative with respect to one character. -/
def deriv : Regex → Char → Regex
  | fail, _ => fail
  | eps, _ => fail
  | cls cc, c => if cc.matches c then eps else fail
  | cat a b, c =>
    if nullable a then salt (scat (deriv a c) b) (deriv b c)
    else scat (deriv a c) b
  | alt a b, c => salt (deriv a c) (deriv b c)
  | star a, c => scat (deriv a c) (star a)

/-- Does some prefix of `s` (the whole of `s` when `anchorEnd` is set, for
patterns ending in `$`) belong to the language of `r`? -/
def matchHere (r : Regex) (anchorEnd : Bool) : List Char → Bool
  | [] => nullable r
  | c :: cs =>
    if r = fail then false
    else (!anchorEnd && nullable r) || matchHere (deriv r c) anchorEnd cs

/-- `re.search(r, s)` match existence: some substring of `s` matches `r`
(reaching the end of `s` when the pattern is `$`-anchored). -/
def search (r : Regex) (anchorEnd : Bool) : List Char → Bool
  | [] => matchHere r anchorEnd []
  | c :: cs => matchHere r anchorEnd (c :: cs) || search r anchorEnd cs

end Regex

open Regex in
/-- Concatenation of a list of regexes. -/
def rcat (rs : List Regex) : Regex := rs.foldr Regex.cat Regex.eps

/-- A literal string as a regex. -/
def rstr (s : String) : Regex := rcat (s.data.map (Regex.cls <| CharClass.lit ·))

/-- `r+`. -/
def rplus (r : Regex) : Regex := Regex.cat r (Regex.star r)

/-- `r?`. -/
def ropt (r : Regex) : Regex := Regex.alt Regex.eps r

/-! ### The pattern tables of `_init_language_patterns` (chunky.py:117-147)

Each entry is `(chunk_type, regex, anchoredAtEnd)` in the dict insertion
order of the source, which is the order `_detect_chunk_type` tries them.
Capture groups `(...)` are kept as their bare contents: the captured text
only feeds the `name` metadata key, which no claim inspects.  The single
quote character and `{` are written `Char.ofNat 39` / `Char.ofNat 123`. -/

open Regex CharClass

/-- `[a-zA-Z_]\w*`. -/
def rIdent : Regex := cat (cls alphaUnd) (star (cls word))

/-- `(?:async\s+)?`. -/
def rAsyncOpt : Regex := ropt (cat (rstr "async") (rplus (cls space)))

/-- `"""`. -/
def rTripleDQ : Regex := rstr "\"\"\""

/-- `'''`. -/
def rTripleSQ : Regex :=
  rcat [cls (lit (Char.ofNat 39)), cls (lit (Char.ofNat 39)), cls (lit (Char.ofNat 39))]

/-- python `function` and `method`:
`(?:async\s+)?def\s+([a-zA-Z_]\w*)\s*\([^)]*\)\s*(?:->.*?)?\s*:` -/
def rePyFunction : Regex :=
  rcat [rAsyncOpt, rstr "def", rplus (cls space), rIdent, star (cls space),
        cls (lit '('), star (cls notRParen), cls (lit ')'), star (cls space),
        ropt (cat (rstr "->") (star (cls anyNotNL))), star (cls space), cls (lit ':')]

/-- python `class`: `class\s+([a-zA-Z_]\w*)\s*(?:\([^)]*\))?\s*:` -/
def rePyClass : Regex :=
  rcat [rstr "class", rplus (cls space), rIdent, star (cls space),
        ropt (rcat [cls (lit '('), star (cls notRParen), cls (lit ')')]),
        star (cls space), cls (lit ':')]

/-- python `docstring`: `"""[\s\S]*?"""|\'\'\'\s*[\s\S]*?\'\'\'` -/
def rePyDocstring : Regex :=
  alt (rcat [rTripleDQ, star (cls anyAll), rTripleDQ])
      (rcat [rTripleSQ, star (cls space), star (cls anyAll), rTripleSQ])

/-- python `comment_single`: `#.*$` (the `$` makes the search
end-anchored). -/
def rePyCommentSingle : Regex := cat (cls (lit '#')) (star (cls anyNotNL))

/-- python `comment_multi`: `"""[\s\S]*?"""|\'\'\'[\s\S]*?\'\'\'` -/
def rePyCommentMulti : Regex :=
  alt (rcat [rTripleDQ, star (cls anyAll), rTripleDQ])
      (rcat [rTripleSQ, star (cls anyAll), rTripleSQ])

/-- `decorator` (python and typescript): `@\w+(?:\(.*\))?` -/
def reDecorator : Regex :=
  rcat [cls (lit '@'), rplus (cls word),
        ropt (rcat [cls (lit '('), star (cls anyNotNL), cls (lit ')')])]

/-- ts/js `function`:
`(?:async\s+)?function\s+([a-zA-Z_]\w*)|const\s+([a-zA-Z_]\w*)\s*=\s*(?:async\s+)?\([^)]*\)\s*=>` -/
def reJsFunction : Regex :=
  alt (rcat [rAsyncOpt, rstr "function", rplus (cls space), rIdent])
      (rcat [rstr "const", rplus (cls space), rIdent, star (cls space),
             cls (lit '='), star (cls space), rAsyncOpt,
             cls (lit '('), star (cls notRParen), cls (lit ')'),
             star (cls space), rstr "=>"])

/-- ts/js `class`: `class\s+([a-zA-Z_]\w*)` -/
def reJsClass : Regex := rcat [rstr "class", rplus (cls space), rIdent]

/-- ts/js `method`: `(?:async\s+)?([a-zA-Z_]\w*)\s*\([^)]*\)\s*{` -/
def reJsMethod : Regex :=
  rcat [rAsyncOpt, rIdent, star (cls space),
        cls (lit '('), star (cls notRParen), cls (lit ')'),
        star (cls space), cls (lit (Char.ofNat 123))]

/-- ts `interface`: `interface\s+([a-zA-Z_]\w*)` -/
def reTsInterface : Regex := rcat [rstr "interface", rplus (cls space), rIdent]

/-- ts `type`: `type\s+([a-zA-Z_]\w*)\s*=` -/
def reTsType : Regex :=
  rcat [rstr "type", rplus (cls space), rIdent, star (cls space), cls (lit '=')]

/-- ts/js `comment_single`: `\/\/.*$` (end-anchored). -/
def reJsCommentSingle : Regex := cat (rstr "//") (star (cls anyNotNL))

/-- ts/js `comment_multi`: `\/\*[\s\S]*?\*\/` -/
def reJsCommentMulti : Regex := rcat [rstr "/*", star (cls anyAll), rstr "*/"]

/-- js `jsx`: `<[A-Z]\w*` -/
def reJsx : Regex := rcat [cls (lit '<'), cls upperAlpha, star (cls word)]

/-- One pattern entry: chunk type, regex, whether the regex ends in `$`. -/
abbrev PatternEntry := String × Regex × Bool

/-- `_init_language_patterns` (chunky.py:117-147), in dict insertion order. -/
def languagePatterns : List (String × List PatternEntry) :=
  [("python",
    [("function", rePyFunction, false),
     ("class", rePyClass, false),
     ("method", rePyFunction, false),
     ("docstring", rePyDocstring, false),
     ("comment_single", rePyCommentSingle, true),
     ("comment_multi", rePyCommentMulti, false),
     ("decorator", reDecorator, false)]),
   ("typescript",
    [("function", reJsFunction, false),
     ("class", reJsClass, false),
     ("method", reJsMethod, false),
     ("interface", reTsInterface, false),
     ("type", reTsType, false),
     ("comment_single", reJsCommentSingle, true),
     ("comment_multi", reJsCommentMulti, false),
     ("decorator", reDecorator, false)]),
   ("javascript",
    [("function", reJsFunction, false),
     ("class", reJsClass, false),
     ("method", reJsMethod, false),
     ("comment_single", reJsCommentSingle, true),
     ("comment_multi", reJsCommentMulti, false),
     ("jsx", reJsx, false)])]

/-- `self.language_patterns.get(language, {})` (chunky.py:267). -/
def patternsFor (language : String) : List PatternEntry :=
  ((languagePatterns.find? (fun p => p.1 = language)).map (·.2)).getD []

/-- `_detect_chunk_type` (chunky.py:331-339): first pattern whose
`re.search` hits wins; the captured name (metadata only) is not modelled. -/
def detectChunkType (line : String) (pats : List PatternEntry) : Option String :=
  pats.findSome? fun p => if Regex.search p.2.1 p.2.2 line.data then some p.1 else none

/-! ### `detect_language` (chunky.py:358-380) -/

/-- `Path(file_path).suffix.lower()`: the extension (with dot) of the final
path component, empty when the basename has no dot or only a leading dot. -/
def pathSuffix (p : String) : String :=
  let revBase := p.data.reverse.takeWhile (· ≠ '/')
  let revExt := revBase.takeWhile (· ≠ '.')
  match revBase.drop revExt.length with
  | '.' :: _ :: _ => ⟨('.' :: revExt.reverse).map Char.toLower⟩
  | _ => ""

/-- `import\s+.*\s+from\s+['"]` (chunky.py:375). -/
def reJsImportFrom : Regex :=
  rcat [rstr "import", rplus (cls space), star (cls anyNotNL), rplus (cls space),
        rstr "from", rplus (cls space), cls quote]

/-- `def\s+\w+\s*\(` (chunky.py:377). -/
def rePyDefHint : Regex :=
  rcat [rstr "def", rplus (cls space), rplus (cls word), star (cls space), cls (lit '(')]

/-- `ext_to_lang` (chunky.py:361-367). -/
def extToLang : List (String × String) :=
  [(".py", "python"), (".ts", "typescript"), (".tsx", "typescript"),
   (".js", "javascript"), (".jsx", "javascript")]

/-- `detect_language` (chunky.py:358-380). -/
def detectLanguage (filePath content : String) : String :=
  match pyDictGet extToLang (pathSuffix filePath) with
  | some lang => lang
  | none =>
    if Regex.search reJsImportFrom false content.data then "javascript"
    else if Regex.search rePyDefHint false content.data then "python"
    else "unknown"

/-! ### The Python AST analyzer (`CodeAnalyzer`, chunky.py:49-101)

The CPython parser itself is external (`ast.parse`); chunks are analyzed
against an abstract syntax tree of the following shape, which carries
exactly the node distinctions `CodeAnalyzer` dispatches on.  A `boolOp`
node's children stand for its `values` list, so `len(child.values) - 1`
is `children.length - 1`.  (`ast.AsyncFunctionDef` has no visitor in the
source and would fall to `generic_visit`; it is not needed here.) -/

inductive PyKind where
  | functionDef (name : String)
  | classDef (name : String)
  | importStmt (names : List String)
  | importFrom (module : String) (names : List String)
  | nameRef (id : String) (isLoad : Bool)
  | ifStmt
  | whileStmt
  | forStmt
  | breakStmt
  | continueStmt
  | exceptHandler
  | boolOp
  | other
  deriving DecidableEq, Repr

inductive PyAst where
  | node (kind : PyKind) (children : List PyAst)

mutual
/-- `ast.walk(node)`: the node and all its descendants (the BFS order of
the original is irrelevant: only counts are taken over it). -/
def walkNodes : PyAst → List PyAst
  | .node k cs => .node k cs :: walkNodesList cs
def walkNodesList : List PyAst → List PyAst
  | [] => []
  | a :: as => walkNodes a ++ walkNodesList as
end

/-- The per-node contribution inside `_count_branches` (chunky.py:92-101):
`+1` for `If/While/For/Break/Continue/ExceptHandler`, `len(values) - 1`
for `BoolOp`, `0` otherwise. -/
def branchWeight : PyAst → Int
  | .node k cs =>
    match k with
    | .ifStmt | .whileStmt | .forStmt | .breakStmt | .continueStmt | .exceptHandler => 1
    | .boolOp => (cs.length : Int) - 1
    | _ => 0

/-- `_count_branches` (chunky.py:92-101): `1` plus the branch weights over
the whole subtree of the function definition. -/
def countBranches (n : PyAst) : Int :=
  1 + ((walkNodes n).map branchWeight).sum

/-- Mutable state of the `CodeAnalyzer` visitor; sets are lists (only
membership is ever queried). -/
structure AnalyzerState where
  imports : List String := []
  complexity : Int := 0
  dependencies : List String := []
  functions : List String := []
  classes : List String := []
  deriving DecidableEq, Repr

mutual
/-- `NodeVisitor.visit` with the visitors of chunky.py:58-90: each visitor
updates the state and then `generic_visit`s the children (depth-first, so
nested function definitions are visited again from the top level). -/
def visitNode (st : AnalyzerState) : PyAst → AnalyzerState
  | .node k cs =>
    let st' :=
      match k with
      | .importStmt names => { st with imports := st.imports ++ names }
      | .importFrom m names =>
          { st with imports := st.imports ++ names.map (fun n => m ++ "." ++ n) }
      | .functionDef name =>
          { st with functions := st.functions ++ [name],
                    complexity := st.complexity + countBranches (.node k cs) }
      | .classDef name => { st with classes := st.classes ++ [name] }
      | .nameRef id isLoad =>
          if isLoad ∧ id ∉ st.functions ∧ id ∉ st.classes ∧ id ∉ st.imports then
            { st with dependencies := st.dependencies ++ [id] }
          else st
      | _ => st
    visitList st' cs
/-- `generic_visit`: visit all children in order. -/
def visitList (st : AnalyzerState) : List PyAst → AnalyzerState
  | [] => st
  | a :: as => visitList (visitNode st a) as
end

/-- `CodeAnalyzer()` run over a parsed tree (chunky.py:39-41). -/
def analyzePython (tree : PyAst) : AnalyzerState :=
  visitNode {} tree

/-! ### Chunks (`CodeChunk`, chunky.py:17-47) -/

structure CodeChunk where
  content : String
  metadata : List (String × String)
  startLine : Nat
  endLine : Nat
  chunkType : String
  language : String
  semanticScore : ℚ := 0
  imports : List String := []
  dependencies : List String := []
  complexity : Int := 0
  deriving DecidableEq, Repr

/-- `_create_chunk` (chunky.py:386-406) followed by `__post_init__`
(chunky.py:30-47): join the lines, and for Python content run the analyzer
on the parse; a parse failure (`SyntaxError`) leaves the zero-valued
defaults in place.  `parse` stands for `ast.parse`. -/
def mkCodeChunk (parse : String → Option PyAst) (lines : List String)
    (startLine endLine : Nat) (language chunkType : String)
    (metadata : List (String × String)) : CodeChunk :=
  let content := joinNL lines
  let base : CodeChunk :=
    { content := content, metadata := metadata, startLine := startLine,
      endLine := endLine, chunkType := chunkType, language := language }
  if language = "python" then
    match parse content with
    | some tree =>
      let st := analyzePython tree
      { base with imports := st.imports, complexity := st.complexity,
                  dependencies := st.dependencies }
    | none => base
  else base

/-! ### The chunker (`ChunkingStrategy`, chunky.py:103-415) -/

/-- The sizing parameters of `ChunkingStrategy.__init__`; the process-wide
instance (chunky.py:409-414) is built from `settings` (config.py:36-38) so
its values are `minChunkSize = 100`, `maxChunkSize = 2000`,
`overlap = 200`. -/
structure ChunkConfig where
  minChunkSize : Nat := 100
  maxChunkSize : Nat := 2000
  overlap : Nat := 200
  deriving DecidableEq, Repr

/-- The configuration of the process-wide `chunking_strategy` instance. -/
def settingsConfig : ChunkConfig := {}

/-- The scan of `_extract_block` (chunky.py:341-356) from index `i`
over `lines[i:]`, carrying the accumulated block.  Returns
`(block, i - 1, i)` exactly as the source does. -/
def extractBlockAux (baseIndent : Nat) :
    List String → Nat → List String → List String × Nat × Nat
  | [], i, block => (block, i - 1, i)
  | line :: rest, i, block =>
    if pyStrip line ≠ "" ∧ indentationLevel line ≤ baseIndent then (block, i - 1, i)
    else extractBlockAux baseIndent rest (i + 1) (block ++ [line])

/-- `_extract_block(lines, start, base_indent)` (chunky.py:341-356);
`startLineStr` is `lines[start]`. -/
def extractBlock (lines : List String) (start : Nat) (startLineStr : String)
    (baseIndent : Nat) : List String × Nat × Nat :=
  extractBlockAux baseIndent (lines.drop (start + 1)) (start + 1) [startLineStr]

/-- The `while i < len(lines)` loop of `create_chunks` (chunky.py:269-327),
state-passing: `i`, `start_line`, `current_chunk`, `current_metadata` and
the emitted `chunks`.  The loop index does not always advance (after a
boundary, scanning resumes at `_extract_block`'s `i - 1`, the last line of
the extracted block), so the loop can run forever; `fuel` makes the
embedding total, with `none` for non-termination. -/
def createChunksLoop (parse : String → Option PyAst) (cfg : ChunkConfig)
    (language : String) (pats : List PatternEntry)
    (baseMetadata : List (String × String)) (lines : List String) :
    Nat → Nat → Nat → List String → List (String × String) → List CodeChunk →
    Option (List CodeChunk)
  | 0, _, _, _, _, _ => none
  | fuel + 1, i, startLine, currentChunk, currentMetadata, chunks =>
    match lines[i]? with
    | none =>
      -- `# Handle remaining lines` (chunky.py:322-327)
      some (if currentChunk.isEmpty then chunks
            else chunks ++ [mkCodeChunk parse currentChunk startLine lines.length
                             language "block" currentMetadata])
    | some line =>
      match detectChunkType line pats with
      | some chunkType =>
        -- `# Save previous chunk if exists` (chunky.py:277-283)
        let chunks := if currentChunk.isEmpty then chunks
          else chunks ++ [mkCodeChunk parse currentChunk startLine i
                           language "block" currentMetadata]
        -- `# Process new chunk` (chunky.py:285-306); the `name` key (the
        -- regex capture, metadata only, inspected by no claim) is omitted
        let ext := extractBlock lines i line (indentationLevel line)
        let newMetadata := pyDictUpdate baseMetadata
          [("chunk_type", chunkType), ("indentation", toString (indentationLevel line))]
        let chunks := chunks ++ [mkCodeChunk parse ext.1 startLine ext.2.2
                                  language chunkType newMetadata]
        createChunksLoop parse cfg language pats baseMetadata lines
          fuel ext.2.1 (ext.2.2 + 1) [] newMetadata chunks
      | none =>
        -- `# Handle regular lines` (chunky.py:308-320)
        let currentChunk := currentChunk ++ [line]
        if cfg.maxChunkSize ≤ (joinNL currentChunk).length then
          createChunksLoop parse cfg language pats baseMetadata lines
            fuel (i + 1) (i + 1) [] currentMetadata
            (chunks ++ [mkCodeChunk parse currentChunk startLine (i + 1)
                         language "block" currentMetadata])
        else
          createChunksLoop parse cfg language pats baseMetadata lines
            fuel (i + 1) startLine currentChunk currentMetadata chunks

/-- Modelled from the spec: `_create_default_chunks` is called for unknown
languages (chunky.py:259) but is defined nowhere in the repository.  Spec
§4.1: "For an unrecognized language, skip structural detection entirely and
apply fixed-size windowing with `overlap` shared characters between
consecutive windows", and §8 fixes the window count at
`ceil(len/maxChunkSize)`; therefore window `k` covers characters
`[k·maxChunkSize, k·maxChunkSize + maxChunkSize + overlap)`. -/
def defaultWindows (maxSize overlap : Nat) (chars : List Char) : List (List Char) :=
  (List.range ((chars.length + maxSize - 1) / maxSize)).map
    (fun k => (chars.drop (k * maxSize)).take (maxSize + overlap))

/-- Modelled from the spec: the chunks built from the fallback windows.
The spec attributes no line spans or types to fallback windows beyond the
`block` fallback type; only `content` is constrained. -/
def createDefaultChunks (cfg : ChunkConfig) (content : String)
    (metadata : List (String × String)) : List CodeChunk :=
  (defaultWindows cfg.maxChunkSize cfg.overlap content.data).map fun w =>
    { content := ⟨w⟩, metadata := metadata, startLine := 1, endLine := 1,
      chunkType := "block", language := "unknown" }

/-- `create_chunks` (chunky.py:256-329). -/
def createChunksFuel (fuel : Nat) (parse : String → Option PyAst)
    (cfg : ChunkConfig) (content : String) (metadata : List (String × String))
    (language : String) : Option (List CodeChunk) :=
  if language = "unknown" then some (createDefaultChunks cfg content metadata)
  else
    createChunksLoop parse cfg language (patternsFor language) metadata
      (splitLines content) fuel 0 1 [] metadata []

/-! ### Enrichment (chunky.py:149-254) -/

/-- `type_scores` (chunky.py:205-211) with the `.get(..., 0.3)` default. -/
def typeScore (chunkType : String) : ℚ :=
  (((([("function", (0.8 : ℚ)), ("class", 1.0), ("method", 0.7),
       ("interface", 0.9), ("block", 0.5)]).find?
      (fun p => p.1 = chunkType)).map (·.2)).getD 0.3)

/-- `_calculate_semantic_score` (chunky.py:200-224). -/
def calculateSemanticScore (cfg : ChunkConfig) (chunk : CodeChunk) : ℚ :=
  let score : ℚ := 0 + typeScore chunk.chunkType
  let score := if cfg.minChunkSize ≤ chunk.content.length ∧
                  chunk.content.length ≤ cfg.maxChunkSize then score + 0.5 else score
  let score := if 0 < chunk.complexity then
      score + min 0.5 ((chunk.complexity : ℚ) / 20) else score
  min 1 score

/-- `_enrich_chunk` (chunky.py:183-198): attaches the semantic score.
(`_enrich_python_chunk` / `_enrich_js_chunk` only write metadata keys —
`has_type_hints`, `is_async`, `decorators`, `is_react_component`,
`has_hooks` — that no claim mentions; they are not modelled.) -/
def enrichChunk (cfg : ChunkConfig) (chunk : CodeChunk) : CodeChunk :=
  { chunk with semanticScore := calculateSemanticScore cfg chunk }

/-- `process_file` (chunky.py:149-162): chunk, then enrich through the
bounded buffer.  The buffer of 10 is submitted to the pool and the futures
are read back in submission order (chunky.py:164-181), so the whole
generator is an order-preserving map of `_enrich_chunk` over the chunks. -/
def processFileChunks (fuel : Nat) (parse : String → Option PyAst)
    (cfg : ChunkConfig) (filePath content : String)
    (metadata : List (String × String)) : Option (List CodeChunk) :=
  let language := detectLanguage filePath content
  (createChunksFuel fuel parse cfg content metadata language).map
    (List.map (enrichChunk cfg))

/-! ### The index coordinator (`VectorStoreService`, vectore_store_service.py)

ChromaDB is the external embedding-index service; its collections are
modelled as lists of records with the documented upsert-by-id, filtered
get/delete and ranked-query semantics.  The embedding itself is abstract:
`dist query doc` is the distance the index assigns to a stored document
for a query. -/

/-- A primary-collection record: id, document and flattened metadata (all
metadata values rendered to strings). -/
structure StoreRec where
  id : String
  document : String
  metadata : List (String × String)
  deriving DecidableEq, Repr

/-- A side-collection record of `chunk_metadata`: its id is
`<chunkId>_meta`, the document carries the imports/dependencies payload,
and its metadata carries `chunk_id` (vectore_store_service.py:113-121). -/
structure MetaRec where
  id : String
  imports : List String
  dependencies : List String
  chunkId : String
  deriving DecidableEq, Repr

/-- The three collections of the service (vectore_store_service.py:41-45);
the `docs` collection is never written by the code under analysis. -/
structure VectorStore where
  code : List StoreRec := []
  docs : List StoreRec := []
  metaColl : List MetaRec := []
  deriving DecidableEq, Repr

/-- Chroma `upsert` by id: overwrite in place when the id exists, append
otherwise. -/
def chromaUpsert {α : Type} (key : α → String) (recs : List α) (r : α) : List α :=
  if recs.any (fun x => key x = key r) then
    recs.map (fun x => if key x = key r then r else x)
  else recs ++ [r]

/-- `upsert` on the primary collection. -/
def upsertRec (recs : List StoreRec) (r : StoreRec) : List StoreRec :=
  chromaUpsert (·.id) recs r

/-- `upsert` on the side collection. -/
def upsertMetaRec (recs : List MetaRec) (r : MetaRec) : List MetaRec :=
  chromaUpsert (·.id) recs r

/-- `_generate_chunk_id` (vectore_store_service.py:198-201); `md5` stands
for `hashlib.md5(...).hexdigest()`. -/
def generateChunkId (md5 : String → String) (chunk : CodeChunk) : String :=
  "c_" ++ md5 chunk.content ++ "_" ++ toString chunk.startLine ++ "_" ++
    toString chunk.endLine

/-- The flattened metadata written with a chunk
(vectore_store_service.py:102-110). -/
def flattenedMetadata (chunk : CodeChunk) : List (String × String) :=
  pyDictUpdate chunk.metadata
    [("chunk_type", chunk.chunkType), ("language", chunk.language),
     ("start_line", toString chunk.startLine), ("end_line", toString chunk.endLine),
     ("semantic_score", toString chunk.semanticScore),
     ("complexity", toString chunk.complexity)]

/-- `_store_chunk` (vectore_store_service.py:94-134), in source order: the
side-collection record is upserted first (only when imports or dependencies
are non-empty), then the primary record.  `primaryWriteFails` injects an
IndexWriteFailure of the external index on the primary upsert; the source
re-raises it (line 134) after the side-collection write has already
happened. -/
def storeChunk (md5 : String → String) (primaryWriteFails : Bool)
    (s : VectorStore) (chunk : CodeChunk) : Except String String × VectorStore :=
  let chunkId := generateChunkId md5 chunk
  let s :=
    if ¬ chunk.imports.isEmpty ∨ ¬ chunk.dependencies.isEmpty then
      { s with metaColl := (upsertMetaRec s.metaColl
          ⟨chunkId ++ "_meta", chunk.imports, chunk.dependencies, chunkId⟩) }
    else s
  if primaryWriteFails then (.error "IndexWriteFailure", s)
  else (.ok chunkId,
        { s with code := upsertRec s.code ⟨chunkId, chunk.content, flattenedMetadata chunk⟩ })

/-- The statuses yielded by `process_file_content`
(vectore_store_service.py:58-92); every status also carries `file_path`,
which is constant per call and omitted. -/
inductive FileStatus where
  | processing (chunkId : String) (progress : Nat)
  | completed (totalChunks : Nat)
  | error (msg : String)
  deriving DecidableEq, Repr

/-- The text of the `TypeError` that CPython raises when `async for` is
applied to a synchronous generator (apostrophes elided), as caught by the
`except` at vectore_store_service.py:86 and embedded in the `error`
status. -/
def asyncForTypeError : String :=
  "TypeError: async for requires an object with __aiter__ method, got generator"

/-- `process_file_content` (vectore_store_service.py:58-92).  Line 67
applies `async for` to the value of `chunking_strategy.process_file(...)`
— a synchronous generator (chunky.py:149); calling a generator function
only constructs the generator and runs none of its body, and the
`async for` protocol then raises `TypeError` before the first iteration.
The `except` at lines 86-92 turns it into a single `error` status.  So
for every input the call runs no chunking, stores nothing, and yields
exactly one `error` status — never `processing` or `completed`. -/
def processFileContent (s : VectorStore) (_filePath _content : String)
    (_metadata : List (String × String)) : List FileStatus × VectorStore :=
  ([.error asyncForTypeError], s)

/-- A ranked search result (vectore_store_service.py:162-167). -/
structure SearchResult where
  content : String
  metadata : List (String × String)
  distance : ℚ
  id : String
  deriving DecidableEq, Repr

/-- A Chroma `where` filter: every key must be present with the given
value. -/
def whereMatch (filt : List (String × String)) (md : List (String × String)) : Bool :=
  filt.all fun kv => pyDictGet md kv.1 = some kv.2

def insertByDistance (x : StoreRec × ℚ) :
    List (StoreRec × ℚ) → List (StoreRec × ℚ)
  | [] => [x]
  | y :: ys => if x.2 ≤ y.2 then x :: y :: ys else y :: insertByDistance x ys

/-- The index ranks hits by ascending distance. -/
def sortByDistance : List (StoreRec × ℚ) → List (StoreRec × ℚ)
  | [] => []
  | x :: xs => insertByDistance x (sortByDistance xs)

/-- The external `collection.query` (vectore_store_service.py:149-154):
the matching records ranked by ascending distance, cut to `n`. -/
def queryCode (dist : String → ℚ) (recs : List StoreRec)
    (filt : List (String × String)) (n : Nat) : List (StoreRec × ℚ) :=
  (sortByDistance ((recs.filter (fun r => whereMatch filt r.metadata)).map
    (fun r => (r, dist r.document)))).take n

/-- Rendering of a string list into a flattened metadata value. -/
def renderStrList (l : List String) : String := String.intercalate "," l

/-- `_enrich_chunk_metadata` (vectore_store_service.py:181-196): join the
side collection by `chunk_id` and merge the imports/dependencies payload
into the result's metadata. -/
def enrichResultMetadata (metaColl : List MetaRec) (r : SearchResult) : SearchResult :=
  match metaColl.find? (fun m => m.chunkId = r.id) with
  | some m =>
    { r with metadata := (pyDictUpdate r.metadata
        [("imports", renderStrList m.imports),
         ("dependencies", renderStrList m.dependencies)]) }
  | none => r

/-- `search_code_chunks` (vectore_store_service.py:136-179).  `readFails`
injects an IndexReadFailure of the external index; the `except` branch
(lines 177-179) turns it into an empty result list.  `dist` is the
distance the index assigns to each stored document for this query. -/
def searchCodeChunks (readFails : Bool) (dist : String → ℚ) (s : VectorStore)
    (nResults : Nat) (filt : List (String × String)) (includeMetadata : Bool) :
    List SearchResult :=
  if readFails then []
  else
    let n := min nResults 20
    let hits := queryCode dist s.code filt n
    if hits.isEmpty then []
    else
      hits.map fun h =>
        let base : SearchResult :=
          { content := h.1.document, metadata := h.1.metadata,
            distance := h.2, id := h.1.id }
        if includeMetadata then enrichResultMetadata s.metaColl base else base

/-- Does a primary record carry the repository tag
(`where={'repo_name': repo_name}`)? -/
def hasRepoTag (repoName : String) (r : StoreRec) : Bool :=
  pyDictGet r.metadata "repo_name" = some repoName

/-- `delete_repository_chunks` (vectore_store_service.py:222-255).  Its
first statement calls `self.collections['code'].count(where={'repo_name':
repo_name})` (lines 226-228), but Chroma's `Collection.count()` accepts
no `where` argument, so the call raises `TypeError` inside the `try`
before anything is counted or deleted (the subsequent
`get(where=..., include=['ids'])` at lines 231-234 would likewise raise:
`ids` is not a valid `include` item).  The `except` at lines 253-255 logs
the error and returns 0.  So for every input the call deletes nothing
from either collection and returns 0. -/
def deleteRepositoryChunks (s : VectorStore) (_repoName : String) :
    Nat × VectorStore :=
  (0, s)

/-! ## Lemmas -/

theorem data_joinNL (ls : List String) :
    (joinNL ls).data = joinNLC (ls.map (·.data)) := by
  match ls with
  | [] => rfl
  | [x] => rfl
  | x :: y :: ys =>
    have ih := data_joinNL (y :: ys)
    show (x ++ "\n" ++ joinNL (y :: ys)).data = _
    rw [String.data_append, String.data_append, ih]
    simp [joinNLC, List.append_assoc]

/-- `'\n'.join(content.split('\n')) == content`. -/
theorem joinNL_splitLines (s : String) : joinNL (splitLines s) = s := by
  apply String.ext
  rw [data_joinNL, splitLines, List.map_map]
  have hcomp : ((fun x : String => x.data) ∘ (fun g : List Char => (⟨g⟩ : String))) =
      id := funext fun g => rfl
  rw [hcomp, List.map_id, joinNLC_splitNL]

theorem joinNL_cons_of_ne (x : String) (xs : List String) (h : xs ≠ []) :
    joinNL (x :: xs) = x ++ "\n" ++ joinNL xs := by
  match xs with
  | [] => exact absurd rfl h
  | y :: ys => rfl

theorem joinNL_append (a b : List String) (ha : a ≠ []) (hb : b ≠ []) :
    joinNL (a ++ b) = joinNL a ++ "\n" ++ joinNL b := by
  match a with
  | [] => exact absurd rfl ha
  | [x] =>
    rw [List.singleton_append, joinNL_cons_of_ne x b hb]
    rfl
  | x :: y :: ys =>
    have ih := joinNL_append (y :: ys) b (by simp) hb
    rw [List.cons_append, joinNL_cons_of_ne x ((y :: ys) ++ b) (by simp),
        joinNL_cons_of_ne x (y :: ys) (by simp), ih]
    simp [String.append_assoc]

/-- The content of an emitted chunk is the newline-join of its lines,
whatever the analysis outcome. -/
theorem mkCodeChunk_content (parse : String → Option PyAst) (lines : List String)
    (sl el : Nat) (lang t : String) (md : List (String × String)) :
    (mkCodeChunk parse lines sl el lang t md).content = joinNL lines := by
  unfold mkCodeChunk
  by_cases h : lang = "python"
  · simp only [if_pos h]
    cases parse (joinNL lines) <;> simp
  · simp only [if_neg h]

/-- Upserting the same record twice in a row is the same as upserting it
once: the second write finds the id and overwrites in place with the same
value. -/
theorem chromaUpsert_idem {α : Type} (key : α → String) (recs : List α) (r : α) :
    chromaUpsert key (chromaUpsert key recs r) r = chromaUpsert key recs r := by
  unfold chromaUpsert
  by_cases h : recs.any (fun x => key x = key r)
  · simp only [if_pos h]
    have hany : (recs.map (fun x => if key x = key r then r else x)).any
        (fun x => key x = key r) = true := by
      rw [List.any_map]
      rcases List.any_eq_true.mp h with ⟨x, hx, hxid⟩
      refine List.any_eq_true.mpr ⟨x, hx, ?_⟩
      simp only [Function.comp]
      simp only [decide_eq_true_eq] at hxid
      simp [hxid]
    rw [if_pos hany, List.map_map]
    apply List.map_congr_left
    intro x _
    by_cases hx : key x = key r <;> simp [Function.comp, hx]
  · simp only [if_neg h]
    have hrecs : ∀ x ∈ recs, ¬ key x = key r := by
      intro x hx hk
      exact h (List.any_eq_true.mpr ⟨x, hx, by simp [hk]⟩)
    have hany : ((recs ++ [r]).any (fun x => key x = key r)) = true := by
      refine List.any_eq_true.mpr ⟨r, by simp, by simp⟩
    rw [if_pos hany, List.map_append]
    have h1 : recs.map (fun x => if key x = key r then r else x) = recs := by
      conv_rhs => rw [← List.map_id recs]
      apply List.map_congr_left
      intro x hx
      simp [hrecs x hx]
    rw [h1]
    simp

/-! ## C5 : content-addressed identifiers and idempotent upsert -/

/-- C5 (settled at the claim's cited code, `_generate_chunk_id` and
`_store_chunk`): the chunk identifier is a function of exactly
`(content, startLine, endLine)` — two chunks agreeing on those three
fields get the same identifier whatever their other fields are; the
identifier `_store_chunk` assigns is exactly that function's value and is
independent of the store's prior contents, so storing the chunks of
identical file content always assigns identical identifiers; and
re-upserting the same chunk immediately again leaves the store exactly
as after the first upsert (idempotent upsert, same stored payload). -/
theorem dm_c5_chunk_id_idempotent (md5 : String → String) (a b : CodeChunk)
    (s s' : VectorStore)
    (hc : a.content = b.content) (hs : a.startLine = b.startLine)
    (he : a.endLine = b.endLine) :
    generateChunkId md5 a = generateChunkId md5 b ∧
    (storeChunk md5 false s a).1 = Except.ok (generateChunkId md5 a) ∧
    (storeChunk md5 false s a).1 = (storeChunk md5 false s' a).1 ∧
    storeChunk md5 false (storeChunk md5 false s a).2 a =
      storeChunk md5 false s a := by
  refine ⟨by rw [generateChunkId, generateChunkId, hc, hs, he], rfl, rfl, ?_⟩
  unfold storeChunk
  simp only [upsertRec, upsertMetaRec]
  split_ifs with h <;> simp [chromaUpsert_idem]

/-! ## C10 : non-atomic two-collection upsert -/

/-- An upserted record is always present in the result. -/
theorem mem_chromaUpsert_self {α : Type} (key : α → String) (recs : List α)
    (r : α) : r ∈ chromaUpsert key recs r := by
  unfold chromaUpsert
  split
  case isTrue h =>
    rcases List.any_eq_true.mp h with ⟨x, hx, hxk⟩
    simp only [decide_eq_true_eq] at hxk
    exact List.mem_map.mpr ⟨x, hx, by simp [hxk]⟩
  case isFalse h => simp

/-- C10: `_store_chunk` writes the side-collection record before the
primary record, so when the primary upsert fails on a chunk with non-empty
imports or dependencies whose id is not yet in the primary collection, the
call raises (IndexWriteFailure propagates), the `<chunkId>_meta` record is
already persisted, and the primary collection holds no record with that
chunk id — an orphaned metadata record. -/
theorem dm_c10_orphaned_metadata (md5 : String → String) (s : VectorStore)
    (chunk : CodeChunk)
    (himp : chunk.imports ≠ [] ∨ chunk.dependencies ≠ [])
    (hfresh : ∀ r ∈ s.code, r.id ≠ generateChunkId md5 chunk) :
    (storeChunk md5 true s chunk).1 = .error "IndexWriteFailure" ∧
    (∃ m ∈ (storeChunk md5 true s chunk).2.metaColl,
        m.id = generateChunkId md5 chunk ++ "_meta" ∧
        m.chunkId = generateChunkId md5 chunk) ∧
    (∀ r ∈ (storeChunk md5 true s chunk).2.code,
        r.id ≠ generateChunkId md5 chunk) := by
  have hcond : (¬ chunk.imports.isEmpty ∨ ¬ chunk.dependencies.isEmpty) := by
    rcases himp with h | h
    · exact Or.inl (by simpa [List.isEmpty_iff] using h)
    · exact Or.inr (by simpa [List.isEmpty_iff] using h)
  simp only [storeChunk]
  rw [if_pos hcond]
  exact ⟨rfl,
    ⟨_, mem_chromaUpsert_self (·.id) s.metaColl _, rfl, rfl⟩,
    hfresh⟩

/-- The chunk of the C10 witness: non-empty imports. -/
def chunkWithImports : CodeChunk :=
  { content := "import os", metadata := [], startLine := 1, endLine := 1,
    chunkType := "block", language := "python", imports := ["os"] }

theorem dm_c10_witness :
    (storeChunk (fun _ => "h") true {} chunkWithImports).1 =
        .error "IndexWriteFailure" ∧
    (∃ m ∈ (storeChunk (fun _ => "h") true {} chunkWithImports).2.metaColl,
        m.id = generateChunkId (fun _ => "h") chunkWithImports ++ "_meta" ∧
        m.chunkId = generateChunkId (fun _ => "h") chunkWithImports) ∧
    (∀ r ∈ (storeChunk (fun _ => "h") true {} chunkWithImports).2.code,
        r.id ≠ generateChunkId (fun _ => "h") chunkWithImports) :=
  dm_c10_orphaned_metadata (fun _ => "h") {} chunkWithImports
    (Or.inl (by decide)) (by simp [VectorStore])

/-! ## C8 : parse failure degrades to zero-valued analysis, score in [0,1] -/

theorem typeScore_bounds (t : String) :
    (0.3 : ℚ) ≤ typeScore t ∧ typeScore t ≤ 1 := by
  unfold typeScore
  cases h : ([("function", (0.8 : ℚ)), ("class", 1.0), ("method", 0.7),
       ("interface", 0.9), ("block", 0.5)]).find? (fun p => p.1 = t) with
  | none => simp; norm_num
  | some p =>
    have hp := List.mem_of_find?_eq_some h
    simp only [h, Option.map_some', Option.getD_some]
    fin_cases hp <;> norm_num

/-- The semantic score is always within `[0, 1]`: the summands are
non-negative and the result is clamped at `1`. -/
theorem semanticScore_bounds (cfg : ChunkConfig) (c : CodeChunk) :
    0 ≤ calculateSemanticScore cfg c ∧ calculateSemanticScore cfg c ≤ 1 := by
  obtain ⟨hts, _⟩ := typeScore_bounds c.chunkType
  simp only [calculateSemanticScore]
  refine ⟨?_, min_le_left _ _⟩
  apply le_min (by norm_num)
  by_cases hcx : 0 < c.complexity
  · have hq : (0 : ℚ) < (c.complexity : ℚ) := by exact_mod_cast hcx
    have hge : (0 : ℚ) ≤ min 0.5 ((c.complexity : ℚ) / 20) :=
      le_min (by norm_num) (le_of_lt (div_pos hq (by norm_num)))
    rw [if_pos hcx]
    split_ifs <;> linarith
  · rw [if_neg hcx]
    split_ifs <;> linarith

/-- C8: a Python chunk whose content fails to parse keeps the zero-valued
analysis results (`complexity = 0`, empty imports, empty dependencies) —
the `SyntaxError` is swallowed — and enrichment still assigns it a
semantic score in `[0, 1]`. -/
theorem dm_c8_parse_failure_degrades (parse : String → Option PyAst)
    (lines : List String) (sl el : Nat) (t : String)
    (md : List (String × String)) (cfg : ChunkConfig)
    (hfail : parse (joinNL lines) = none) :
    (mkCodeChunk parse lines sl el "python" t md).complexity = 0 ∧
    (mkCodeChunk parse lines sl el "python" t md).imports = [] ∧
    (mkCodeChunk parse lines sl el "python" t md).dependencies = [] ∧
    0 ≤ (enrichChunk cfg (mkCodeChunk parse lines sl el "python" t md)).semanticScore ∧
    (enrichChunk cfg (mkCodeChunk parse lines sl el "python" t md)).semanticScore ≤ 1 := by
  have hmk : mkCodeChunk parse lines sl el "python" t md =
      { content := joinNL lines, metadata := md, startLine := sl, endLine := el,
        chunkType := t, language := "python" } := by
    unfold mkCodeChunk
    simp [hfail]
  rw [hmk]
  exact ⟨rfl, rfl, rfl,
    (semanticScore_bounds cfg _).1, (semanticScore_bounds cfg _).2⟩

theorem dm_c8_witness :
    ((fun _ : String => (none : Option PyAst)) (joinNL ["if x:"]) = none) ∧
    (mkCodeChunk (fun _ => none) ["if x:"] 1 1 "python" "block" []).complexity = 0 ∧
    (mkCodeChunk (fun _ => none) ["if x:"] 1 1 "python" "block" []).imports = [] ∧
    (mkCodeChunk (fun _ => none) ["if x:"] 1 1 "python" "block" []).dependencies = [] ∧
    0 ≤ (enrichChunk settingsConfig
        (mkCodeChunk (fun _ => none) ["if x:"] 1 1 "python" "block" [])).semanticScore ∧
    (enrichChunk settingsConfig
        (mkCodeChunk (fun _ => none) ["if x:"] 1 1 "python" "block" [])).semanticScore ≤ 1 := by
  refine ⟨rfl, ?_⟩
  have h := dm_c8_parse_failure_degrades (fun _ => none) ["if x:"] 1 1 "block" []
    settingsConfig rfl
  exact ⟨h.1, h.2.1, h.2.2.1, h.2.2.2.1, h.2.2.2.2⟩

/-! ## C9 : cyclomatic complexity -/

/-- Is the node a `FunctionDef`? -/
def isFunctionDefNode : PyAst → Bool
  | .node (.functionDef _) _ => true
  | _ => false

/-- What the analyzer actually computes (amended claim): the sum, over
every function-definition node anywhere in the tree, of that definition's
`_count_branches` value — so a branch node inside a nested function
definition is counted once per enclosing definition, and branch nodes
outside every function definition contribute nothing. -/
def mccabeAmended (t : PyAst) : Int :=
  (((walkNodes t).filter isFunctionDefNode).map countBranches).sum

/-- The claim's McCabe formula, read as written: 1 per function
definition, plus the branch weight of each node of the chunk counted
once. -/
def mccabeClaim (t : PyAst) : Int :=
  (((walkNodes t).filter isFunctionDefNode).length : Int) +
    ((walkNodes t).map branchWeight).sum

theorem mccabeAmended_list (l : List PyAst) :
    (((walkNodesList l).filter isFunctionDefNode).map countBranches).sum =
    (l.map mccabeAmended).sum := by
  induction l with
  | nil => rfl
  | cons a as ih =>
    simp only [walkNodesList, List.filter_append, List.map_append,
      List.sum_append, ih, List.map_cons, List.sum_cons]
    rfl

theorem mccabeAmended_node (k : PyKind) (cs : List PyAst) :
    mccabeAmended (.node k cs) =
      (if isFunctionDefNode (.node k cs) then countBranches (.node k cs) else 0) +
      (cs.map mccabeAmended).sum := by
  rw [← mccabeAmended_list]
  simp only [mccabeAmended]
  rw [show walkNodes (.node k cs) = .node k cs :: walkNodesList cs from rfl,
      List.filter_cons]
  by_cases hf : isFunctionDefNode (.node k cs)
  · simp [hf]
  · simp [hf]

mutual
/-- The complexity accumulated by a visit is exactly the amended McCabe
sum of the visited subtree, on top of the complexity already accumulated. -/
theorem visitNode_complexity (st : AnalyzerState) :
    (n : PyAst) → (visitNode st n).complexity = st.complexity + mccabeAmended n
  | .node k cs => by
    rw [mccabeAmended_node]
    cases k with
    | functionDef name =>
      simp only [visitNode]
      rw [visitList_complexity]
      simp [isFunctionDefNode]
      omega
    | nameRef id isLoad =>
      simp only [visitNode]
      rw [visitList_complexity,
          show isFunctionDefNode (.node (.nameRef id isLoad) cs) = false from rfl]
      simp only [Bool.false_eq_true, if_false, zero_add]
      split_ifs <;> simp
    | _ =>
      simp only [visitNode]
      rw [visitList_complexity]
      simp [isFunctionDefNode]
/-- List version for `generic_visit`. -/
theorem visitList_complexity (st : AnalyzerState) :
    (l : List PyAst) →
      (visitList st l).complexity = st.complexity + (l.map mccabeAmended).sum
  | [] => by simp [visitList]
  | a :: as => by
    simp only [visitList]
    rw [visitList_complexity (visitNode st a) as, visitNode_complexity st a]
    simp [add_assoc]
end

/-- C9 (amended): for every parsed chunk, the computed complexity equals
the sum over all function-definition nodes of `_count_branches` of that
node's whole subtree — nested definitions are counted once per enclosing
definition; a chunk with no function definition gets complexity 0. -/
theorem dm_c9_amended_complexity (t : PyAst) :
    (analyzePython t).complexity = mccabeAmended t ∧
    ((∀ n ∈ walkNodes t, isFunctionDefNode n = false) →
      (analyzePython t).complexity = 0) := by
  have hmain : (analyzePython t).complexity = mccabeAmended t := by
    have h := visitNode_complexity {} t
    simpa [analyzePython] using h
  refine ⟨hmain, fun hnone => ?_⟩
  have hz : (walkNodes t).filter isFunctionDefNode = [] :=
    List.filter_eq_nil_iff.mpr (fun a ha => by simp [hnone a ha])
  rw [hmain]
  simp [mccabeAmended, hz]

/-- The chunk
`def f():\n    def g():\n        if x:\n            pass`
as the parser sees it: a module whose single statement is `f`, whose body
is the nested `g`, whose body is an `if` over the name `x`. -/
def pyNestedFunctions : PyAst :=
  .node .other
    [.node (.functionDef "f")
      [.node (.functionDef "g")
        [.node .ifStmt [.node (.nameRef "x" true) [], .node .other []]]]]

/-- C9 counterexample: on the nested-function chunk the analyzer computes
4 (the inner `if` and the inner `def` are walked again from the outer
definition), while the claim's count — 1 per function definition (2 here)
plus 1 per conditional node (1 here) — is 3. -/
theorem dm_c9_counterexample :
    (analyzePython pyNestedFunctions).complexity = 4 ∧
    mccabeClaim pyNestedFunctions = 3 ∧
    (analyzePython pyNestedFunctions).complexity ≠ mccabeClaim pyNestedFunctions := by
  have h1 : (analyzePython pyNestedFunctions).complexity = 4 := by
    have h := visitNode_complexity {} pyNestedFunctions
    simp only [analyzePython]
    rw [h]
    simp only [pyNestedFunctions, mccabeAmended, walkNodes, walkNodesList,
      isFunctionDefNode, countBranches, branchWeight, List.filter_cons,
      List.filter_nil, List.filter_append, List.map_cons, List.map_nil,
      List.map_append, List.sum_cons, List.sum_nil, List.sum_append,
      List.cons_append, List.nil_append, List.append_nil]
    norm_num [countBranches, walkNodes, walkNodesList, branchWeight,
      List.map_cons, List.map_nil, List.map_append, List.sum_cons, List.sum_nil,
      List.sum_append, List.cons_append, List.nil_append, List.append_nil]
  have h2 : mccabeClaim pyNestedFunctions = 3 := by
    simp only [mccabeClaim, pyNestedFunctions, countBranches, isFunctionDefNode,
      walkNodes, walkNodesList, branchWeight, List.filter_cons, List.filter_nil,
      List.filter_append, List.map_cons, List.map_nil, List.map_append,
      List.sum_cons, List.sum_nil, List.sum_append, List.cons_append,
      List.nil_append, List.append_nil, List.length_cons, List.length_nil]
    norm_num
  exact ⟨h1, h2, by rw [h1, h2]; norm_num⟩

/-! ## C4 : unknown language falls back to fixed-size windows
(spec-modelled, `_create_default_chunks` missing from the repository) -/

theorem defaultWindows_length (m o : Nat) (cs : List Char) :
    (defaultWindows m o cs).length = (cs.length + m - 1) / m := by
  simp [defaultWindows]

/-- Consecutive fallback windows share their boundary characters: the part
of a window past the first `m` characters reappears as the prefix of the
next window. -/
theorem defaultWindows_chain (m o : Nat) (cs : List Char) :
    List.Chain' (fun a b => b.take o = a.drop m) (defaultWindows m o cs) := by
  unfold defaultWindows
  rw [List.chain'_map]
  cases hn : (cs.length + m - 1) / m with
  | zero => simp
  | succ n =>
    rw [List.chain'_range_succ]
    intro k _
    rw [List.take_take, Nat.min_eq_left (Nat.le_add_left o m),
        List.drop_take, List.drop_drop, Nat.add_sub_cancel_left]
    have hm : k * m + m = (k + 1) * m := by ring
    rw [hm]

/-- C4 (spec-modelled): for a file classified `unknown`, `create_chunks`
skips structural detection entirely and returns the fallback windows; on a
20000-character input with the process-wide configuration
(`maxChunkSize = 2000`, `overlap = 200`) this yields
`ceil(20000 / 2000) = 10` windows of `maxChunkSize + overlap` characters
(the last possibly shorter), and consecutive windows share exactly the
`overlap` characters past each `maxChunkSize` boundary. -/
theorem dm_c4_unknown_windows (fuel : Nat) (parse : String → Option PyAst)
    (meta : List (String × String)) (content : String)
    (hlen : content.length = 20000) :
    createChunksFuel fuel parse settingsConfig content meta "unknown" =
      some (createDefaultChunks settingsConfig content meta) ∧
    ((createDefaultChunks settingsConfig content meta).map (·.content)) =
      (defaultWindows 2000 200 content.data).map (fun w => (⟨w⟩ : String)) ∧
    (defaultWindows 2000 200 content.data).length = 10 ∧
    10 = (20000 + 2000 - 1) / 2000 ∧
    List.Chain' (fun a b => b.take 200 = a.drop 2000)
      (defaultWindows 2000 200 content.data) := by
  have hdata : content.data.length = 20000 := hlen
  refine ⟨by simp [createChunksFuel], ?_, ?_, by norm_num, defaultWindows_chain 2000 200 _⟩
  · simp [createDefaultChunks, List.map_map, settingsConfig]
  · rw [defaultWindows_length, hdata]

theorem dm_c4_witness :
    ((⟨List.replicate 20000 'a'⟩ : String).length = 20000) ∧
    (createChunksFuel 1 (fun _ => none) settingsConfig
        ⟨List.replicate 20000 'a'⟩ [] "unknown" =
      some (createDefaultChunks settingsConfig ⟨List.replicate 20000 'a'⟩ []) ∧
    ((createDefaultChunks settingsConfig ⟨List.replicate 20000 'a'⟩ []).map (·.content)) =
      (defaultWindows 2000 200 (⟨List.replicate 20000 'a'⟩ : String).data).map
        (fun w => (⟨w⟩ : String)) ∧
    (defaultWindows 2000 200 (⟨List.replicate 20000 'a'⟩ : String).data).length = 10 ∧
    10 = (20000 + 2000 - 1) / 2000 ∧
    List.Chain' (fun a b => b.take 200 = a.drop 2000)
      (defaultWindows 2000 200 (⟨List.replicate 20000 'a'⟩ : String).data)) :=
  ⟨by rw [show (⟨List.replicate 20000 'a'⟩ : String).length =
        (List.replicate 20000 'a').length from rfl, List.length_replicate],
   dm_c4_unknown_windows 1 (fun _ => none) [] ⟨List.replicate 20000 'a'⟩
     (by rw [show (⟨List.replicate 20000 'a'⟩ : String).length =
          (List.replicate 20000 'a').length from rfl, List.length_replicate])⟩

/-! ## C7 : search is bounded, sorted by distance, and fails soft -/

theorem mem_insertByDistance (x y : StoreRec × ℚ) (l : List (StoreRec × ℚ)) :
    y ∈ insertByDistance x l ↔ y = x ∨ y ∈ l := by
  induction l with
  | nil => simp [insertByDistance]
  | cons z zs ih =>
    simp only [insertByDistance]
    split_ifs
    · simp [List.mem_cons]
    · simp only [List.mem_cons, ih]
      tauto

theorem pairwise_insertByDistance (x : StoreRec × ℚ) (l : List (StoreRec × ℚ))
    (h : l.Pairwise (fun a b => a.2 ≤ b.2)) :
    (insertByDistance x l).Pairwise (fun a b => a.2 ≤ b.2) := by
  induction l with
  | nil => simp [insertByDistance]
  | cons z zs ih =>
    rw [List.pairwise_cons] at h
    obtain ⟨hz, hzs⟩ := h
    simp only [insertByDistance]
    split_ifs with hle
    · refine List.pairwise_cons.mpr ⟨?_, List.pairwise_cons.mpr ⟨hz, hzs⟩⟩
      intro a ha
      rcases List.mem_cons.mp ha with rfl | ha'
      · exact hle
      · exact le_trans hle (hz a ha')
    · refine List.pairwise_cons.mpr ⟨?_, ih hzs⟩
      intro a ha
      rcases (mem_insertByDistance x a zs).mp ha with rfl | ha'
      · exact le_of_not_le hle
      · exact hz a ha'

theorem pairwise_sortByDistance (l : List (StoreRec × ℚ)) :
    (sortByDistance l).Pairwise (fun a b => a.2 ≤ b.2) := by
  induction l with
  | nil => simp [sortByDistance]
  | cons x xs ih => exact pairwise_insertByDistance x _ ih

/-- The ranked hits of the modelled index are sorted by ascending
distance. -/
theorem queryCode_pairwise (dist : String → ℚ) (recs : List StoreRec)
    (filt : List (String × String)) (n : Nat) :
    (queryCode dist recs filt n).Pairwise (fun a b => a.2 ≤ b.2) :=
  (pairwise_sortByDistance _).sublist (List.take_sublist _ _)

theorem queryCode_length_le (dist : String → ℚ) (recs : List StoreRec)
    (filt : List (String × String)) (n : Nat) :
    (queryCode dist recs filt n).length ≤ n :=
  List.length_take_le _ _

/-- Joining the side collection does not change a result's distance. -/
theorem enrichResultMetadata_distance (metaColl : List MetaRec)
    (r : SearchResult) :
    (enrichResultMetadata metaColl r).distance = r.distance := by
  unfold enrichResultMetadata
  cases metaColl.find? (fun m => m.chunkId = r.id) <;> rfl

/-- C7: `search_code_chunks` returns at most `min(requested, 20)` results,
in non-decreasing distance order; an injected read failure and an empty
index both yield the empty list rather than an error. -/
theorem dm_c7_search_bounded_sorted (readFails : Bool) (dist : String → ℚ)
    (s : VectorStore) (n : Nat) (filt : List (String × String)) (inc : Bool) :
    (searchCodeChunks readFails dist s n filt inc).length ≤ min n 20 ∧
    List.Pairwise (fun a b => a.distance ≤ b.distance)
      (searchCodeChunks readFails dist s n filt inc) ∧
    (readFails = true → searchCodeChunks readFails dist s n filt inc = []) ∧
    (s.code = [] → searchCodeChunks readFails dist s n filt inc = []) := by
  cases readFails with
  | true =>
    refine ⟨?_, ?_, fun _ => rfl, fun _ => rfl⟩ <;> simp [searchCodeChunks]
  | false =>
    simp only [searchCodeChunks, Bool.false_eq_true, if_false]
    by_cases hq : (queryCode dist s.code filt (min n 20)).isEmpty
    · rw [if_pos hq]
      exact ⟨Nat.zero_le _, List.Pairwise.nil, fun h => h.elim, fun _ => rfl⟩
    · rw [if_neg hq]
      refine ⟨?_, ?_, fun h => h.elim, ?_⟩
      · rw [List.length_map]
        exact queryCode_length_le dist s.code filt (min n 20)
      · refine List.Pairwise.map _ ?_ (queryCode_pairwise dist s.code filt (min n 20))
        intro a b hab
        cases inc <;>
          simp [enrichResultMetadata_distance, hab]
      · intro hcode
        exfalso
        apply hq
        simp [queryCode, hcode, sortByDistance]

theorem dm_c7_witness :
    (searchCodeChunks false (fun _ => 0)
        { code := [⟨"i1", "doc", [("repo_name", "r")]⟩] } 5 [] true).length ≤ min 5 20 ∧
    List.Pairwise (fun a b => a.distance ≤ b.distance)
      (searchCodeChunks false (fun _ => 0)
        { code := [⟨"i1", "doc", [("repo_name", "r")]⟩] } 5 [] true) ∧
    (false = true → searchCodeChunks false (fun _ => 0)
        { code := [⟨"i1", "doc", [("repo_name", "r")]⟩] } 5 [] true = []) ∧
    (VectorStore.code { code := [⟨"i1", "doc", [("repo_name", "r")]⟩] } = [] →
      searchCodeChunks false (fun _ => 0)
        { code := [⟨"i1", "doc", [("repo_name", "r")]⟩] } 5 [] true = []) :=
  dm_c7_search_bounded_sorted false (fun _ => 0)
    { code := [⟨"i1", "doc", [("repo_name", "r")]⟩] } 5 [] true

/-! ## C6 : repository deletion removes chunks and their side records -/

/-- A `where` filter on `repo_name` matches exactly the records carrying
the tag. -/
theorem whereMatch_repoTag (tag : String) (r : StoreRec) :
    whereMatch [("repo_name", tag)] r.metadata = hasRepoTag tag r := by
  simp [whereMatch, hasRepoTag]

/-- When no primary record matches the filter, the search returns `[]`. -/
theorem searchCodeChunks_no_match (dist : String → ℚ) (s : VectorStore)
    (n : Nat) (filt : List (String × String)) (inc : Bool)
    (h : s.code.filter (fun r => whereMatch filt r.metadata) = []) :
    searchCodeChunks false dist s n filt inc = [] := by
  simp [searchCodeChunks, queryCode, h, sortByDistance]

/-- The store of the C6 failing input: two repositories, one side
record. -/
def storeTwoRepos : VectorStore :=
  { code := [⟨"id1", "doc1", [("repo_name", "repoA")]⟩,
             ⟨"id2", "doc2", [("repo_name", "repoB")]⟩],
    metaColl := [⟨"id1_meta", ["os"], [], "id1"⟩] }

/-- C6 at the failing input: `delete_repository_chunks` raises on its very
first statement (`count()` accepts no `where`) into the `except` branch,
so it returns 0 and deletes nothing, although one primary record carries
the tag; the record and its side record survive, and a search filtered on
the tag immediately afterwards still returns it — the claimed deletion,
returned count and empty follow-up search all fail. -/
theorem dm_c6_delete_noop :
    deleteRepositoryChunks storeTwoRepos "repoA" = (0, storeTwoRepos) ∧
    (storeTwoRepos.code.filter (hasRepoTag "repoA")).length = 1 ∧
    ((searchCodeChunks false (fun _ => 0)
        (deleteRepositoryChunks storeTwoRepos "repoA").2 5
        [("repo_name", "repoA")] false).map (fun r => r.id)) = ["id1"] ∧
    searchCodeChunks false (fun _ => 0)
        (deleteRepositoryChunks storeTwoRepos "repoA").2 5
        [("repo_name", "repoA")] false ≠ [] ∧
    (deleteRepositoryChunks storeTwoRepos "repoA").2.metaColl =
      [⟨"id1_meta", ["os"], [], "id1"⟩] :=
  ⟨rfl, by decide, by decide, by decide, rfl⟩

/-! ## C1, C2, C3 : the `create_chunks` scan -/

/-- Joining the per-group joins equals joining the concatenation, for
non-empty groups. -/
theorem joinNL_join : ∀ (gs : List (List String)), (∀ g ∈ gs, g ≠ []) →
    joinNL (gs.map joinNL) = joinNL gs.flatten
  | [], _ => rfl
  | [g], _ => by simp [joinNL, List.flatten]
  | g :: g' :: gs', h => by
    have hg : g ≠ [] := h g (by simp)
    have hrest := joinNL_join (g' :: gs')
      (fun x hx => h x (List.mem_cons_of_mem g hx))
    have hg' : g' ≠ [] := h g' (by simp)
    have hne : (g' :: gs').flatten ≠ [] := by
      cases g' with
      | nil => exact absurd rfl hg'
      | cons c cs => simp [List.flatten]
    rw [show (g :: g' :: gs').map joinNL = joinNL g :: (g' :: gs').map joinNL
        from rfl,
      joinNL_cons_of_ne _ _ (by simp), hrest,
      show (g :: g' :: gs').flatten = g ++ (g' :: gs').flatten from rfl,
      joinNL_append g _ hg hne]

/-- When no line of the file matches a boundary pattern, the scan
terminates and partitions the lines into consecutive non-empty groups;
every emitted chunk's content is the newline-join of its group. -/
theorem createChunksLoop_no_boundary (parse : String → Option PyAst)
    (cfg : ChunkConfig) (language : String) (pats : List PatternEntry)
    (meta0 : List (String × String)) (lines : List String)
    (hall : ∀ l ∈ lines, detectChunkType l pats = none) :
    ∀ (fuel i startLine : Nat) (cur : List String)
      (curMeta : List (String × String)) (chunks : List CodeChunk),
      lines.length - i < fuel →
      ∃ (out : List CodeChunk) (gs : List (List String)),
        createChunksLoop parse cfg language pats meta0 lines fuel i startLine
          cur curMeta chunks = some out ∧
        out.map (·.content) = chunks.map (·.content) ++ gs.map joinNL ∧
        gs.flatten = cur ++ lines.drop i ∧
        ∀ g ∈ gs, g ≠ [] := by
  intro fuel
  induction fuel with
  | zero => intro i _ _ _ _ hf; omega
  | succ f ih =>
    intro i startLine cur curMeta chunks hfuel
    cases hline : lines[i]? with
    | none =>
      have hlen : lines.length ≤ i := by
        by_contra hlt
        push_neg at hlt
        rw [List.getElem?_eq_getElem hlt] at hline
        exact Option.noConfusion hline
      have hdrop : lines.drop i = [] := List.drop_eq_nil_of_le hlen
      by_cases hcur : cur.isEmpty
      · have hc : cur = [] := List.isEmpty_iff.mp hcur
        refine ⟨chunks, [], ?_, by simp, by simp [hc, hdrop], by simp⟩
        simp [createChunksLoop, hline, hcur]
      · have hc : cur ≠ [] := by simpa [List.isEmpty_iff] using hcur
        refine ⟨chunks ++ [mkCodeChunk parse cur startLine lines.length
            language "block" curMeta], [cur], ?_, ?_, ?_, ?_⟩
        · simp [createChunksLoop, hline, hcur]
        · simp [mkCodeChunk_content]
        · simp [hdrop]
        · simpa using hc
    | some line =>
      have hi : i < lines.length := by
        by_contra hge
        push_neg at hge
        rw [List.getElem?_eq_none hge] at hline
        exact Option.noConfusion hline
      have hmem : line ∈ lines := by
        have h2 := List.getElem?_eq_getElem hi (l := lines)
        rw [hline] at h2
        rw [Option.some.inj h2]
        exact List.getElem_mem hi
      have hdet : detectChunkType line pats = none := hall line hmem
      have hload : lines[i] = line := by
        have h2 := List.getElem?_eq_getElem hi (l := lines)
        rw [hline] at h2
        exact (Option.some.inj h2).symm
      have hdropi : lines.drop i = line :: lines.drop (i + 1) := by
        rw [List.drop_eq_getElem_cons hi, hload]
      by_cases hsz : cfg.maxChunkSize ≤ (joinNL (cur ++ [line])).length
      · obtain ⟨out, gs', heq, hmap, hjoin, hne⟩ :=
          ih (i + 1) (i + 1) [] curMeta
            (chunks ++ [mkCodeChunk parse (cur ++ [line]) startLine (i + 1)
              language "block" curMeta]) (by omega)
        refine ⟨out, (cur ++ [line]) :: gs', ?_, ?_, ?_, ?_⟩
        · simp only [createChunksLoop, hline, hdet]
          rw [if_pos hsz]
          exact heq
        · rw [hmap]
          simp [mkCodeChunk_content, List.append_assoc]
        · rw [List.flatten, hjoin, hdropi]
          simp [List.append_assoc]
        · intro g hg
          rcases List.mem_cons.mp hg with rfl | hg'
          · simp
          · exact hne g hg'
      · obtain ⟨out, gs', heq, hmap, hjoin, hne⟩ :=
          ih (i + 1) startLine (cur ++ [line]) curMeta chunks (by omega)
        refine ⟨out, gs', ?_, hmap, ?_, hne⟩
        · simp only [createChunksLoop, hline, hdet]
          rw [if_neg hsz]
          exact heq
        · rw [hjoin, hdropi]
          simp [List.append_assoc]

/-- C1 (amended): for a file in which no line matches a structural
boundary pattern of its (recognized) language, the scan terminates and
joining the chunks' `content` fields with single newlines in emission
order reconstructs the original file content. -/
theorem dm_c1_amended (parse : String → Option PyAst) (cfg : ChunkConfig)
    (meta : List (String × String)) (language content : String)
    (hlang : language ≠ "unknown")
    (hall : ∀ l ∈ splitLines content,
      detectChunkType l (patternsFor language) = none) :
    ∃ cs : List CodeChunk,
      createChunksFuel ((splitLines content).length + 1) parse cfg content meta
        language = some cs ∧
      joinNL (cs.map (·.content)) = content := by
  obtain ⟨out, gs, heq, hmap, hjoin, hne⟩ :=
    createChunksLoop_no_boundary parse cfg language (patternsFor language) meta
      (splitLines content) hall ((splitLines content).length + 1) 0 1 [] meta []
      (by omega)
  refine ⟨out, ?_, ?_⟩
  · simp only [createChunksFuel]
    rw [if_neg hlang]
    exact heq
  · rw [hmap]
    simp only [List.map_nil, List.nil_append]
    rw [joinNL_join gs hne, hjoin]
    simp only [List.drop_zero, List.nil_append]
    exact joinNL_splitLines content

theorem dm_c1_amended_witness :
    ("python" ≠ "unknown") ∧
    (∀ l ∈ splitLines "x = 1\ny = 2",
      detectChunkType l (patternsFor "python") = none) ∧
    ∃ cs : List CodeChunk,
      createChunksFuel ((splitLines "x = 1\ny = 2").length + 1) (fun _ => none)
        settingsConfig "x = 1\ny = 2" [] "python" = some cs ∧
      joinNL (cs.map (·.content)) = "x = 1\ny = 2" :=
  ⟨by decide, by decide,
   dm_c1_amended (fun _ => none) settingsConfig [] "python" "x = 1\ny = 2"
     (by decide) (by decide)⟩

/-- A Python file whose `def` line triggers the boundary scan. -/
def pyFileWithDef : String := "x = 1\ndef f(x):\n    return x\ny = 2"

/-- C1 counterexample: on `pyFileWithDef` the emitted chunks are
`"x = 1"`, `"def f(x):\n    return x"` and `"    return x\ny = 2"` — the
last line of the extracted block is re-scanned and duplicated — so neither
plain concatenation nor newline-joining of the contents reconstructs the
file. -/
theorem dm_c1_counterexample :
    ((createChunksFuel 20 (fun _ => none) settingsConfig pyFileWithDef []
        "python").map (fun cs => String.join (cs.map (·.content)))) =
      some "x = 1def f(x):\n    return x    return x\ny = 2" ∧
    ((createChunksFuel 20 (fun _ => none) settingsConfig pyFileWithDef []
        "python").map (fun cs => joinNL (cs.map (·.content)))) =
      some "x = 1\ndef f(x):\n    return x\n    return x\ny = 2" ∧
    "x = 1def f(x):\n    return x    return x\ny = 2" ≠ pyFileWithDef ∧
    "x = 1\ndef f(x):\n    return x\n    return x\ny = 2" ≠ pyFileWithDef := by
  exact ⟨by decide, by decide, by decide, by decide⟩

/-- A Python file with two consecutive function definitions. -/
def pyFileTwoDefs : String :=
  "def f():\n    return 1\ndef g():\n    return 2\nz = 3"

/-- C2 at the failing input: the second emitted chunk covers the
re-scanned leftover of the first extracted block and carries
`startLine = 3 > endLine = 2`, because scanning resumes at the last line
of the extracted block instead of after it. -/
theorem dm_c2_start_exceeds_end :
    ((createChunksFuel 20 (fun _ => none) settingsConfig pyFileTwoDefs []
        "python").map (List.map (fun c => (c.startLine, c.endLine)))) =
      some [(1, 2), (3, 2), (3, 4), (5, 5)] ∧
    ¬ (∀ p ∈ [((1 : Nat), (2 : Nat)), (3, 2), (3, 4), (5, 5)], p.1 ≤ p.2) := by
  exact ⟨by decide, by decide⟩

/-- C3 counterexample: the empty file splits into `[""]`, so the chunker
emits one chunk with empty content (not zero chunks); and
`process_file_content` — whose `async for` over the synchronous generator
raises `TypeError` into its except branch — emits a single `error` status
(not a `completed` status with total 0). -/
theorem dm_c3_counterexample :
    ((createChunksFuel 2 (fun _ => none) settingsConfig "" [] "python").map
      (List.map (fun c => c.content))) = some [""] ∧
    ((createChunksFuel 2 (fun _ => none) settingsConfig "" [] "python").map
      List.length) = some 1 ∧
    (processFileContent {} "a.py" "" []).1 = [.error asyncForTypeError] ∧
    (processFileContent {} "a.py" "" []).1 ≠ [.completed 0] := by
  exact ⟨by decide, by decide, rfl, by decide⟩

/-- C3 (amended): the empty file yields exactly one chunk, whose content
is empty; and `process_file_content`, as written, emits for every input
exactly one `error` status — the `async for` applied to the synchronous
generator raises `TypeError` into its except branch — so no `processing`
and no `completed` status is ever emitted and the store is untouched. -/
theorem dm_c3_amended (parse : String → Option PyAst)
    (meta : List (String × String)) (s : VectorStore) (fp content : String)
    (md : List (String × String)) :
    ((createChunksFuel 2 parse settingsConfig "" meta "python").map
      (List.map (fun c => c.content))) = some [""] ∧
    (processFileContent s fp content md).1 = [.error asyncForTypeError] ∧
    (∀ st ∈ (processFileContent s fp content md).1,
      (∀ cid p, st ≠ .processing cid p) ∧ ∀ k, st ≠ .completed k) ∧
    (processFileContent s fp content md).2 = s := by
  refine ⟨?_, rfl, ?_, rfl⟩
  · have h1 : createChunksFuel 2 parse settingsConfig "" meta "python" =
        some [mkCodeChunk parse [""] 1 1 "python" "block" meta] := rfl
    rw [h1]
    simp [mkCodeChunk_content, joinNL]
  · intro st hst
    simp only [processFileContent, List.mem_singleton] at hst
    subst hst
    constructor
    · intro cid p
      simp
    · intro k
      simp

theorem dm_c3_amended_witness :
    ((createChunksFuel 2 (fun _ => none) settingsConfig "" [("repo_name", "r")]
        "python").map (List.map (fun c => c.content))) = some [""] ∧
    (processFileContent {} "b.py" "print" [("repo_name", "r")]).1 =
      [.error asyncForTypeError] ∧
    (∀ st ∈ (processFileContent {} "b.py" "print" [("repo_name", "r")]).1,
      (∀ cid p, st ≠ .processing cid p) ∧ ∀ k, st ≠ .completed k) ∧
    (processFileContent {} "b.py" "print" [("repo_name", "r")]).2 = {} :=
  dm_c3_amended (fun _ => none) [("repo_name", "r")] {} "b.py" "print"
    [("repo_name", "r")]

/-- Chunks of the C5 witness: same content and line span, different type
and metadata. -/
def chunkPlainA : CodeChunk :=
  { content := "x", metadata := [], startLine := 1, endLine := 2,
    chunkType := "block", language := "python" }

/-- Second chunk of the C5 witness. -/
def chunkPlainB : CodeChunk :=
  { content := "x", metadata := [("k", "v")], startLine := 1, endLine := 2,
    chunkType := "function", language := "javascript" }

/-- Non-empty store for the C5 witness. -/
def storeWithDoc : VectorStore := { docs := [⟨"d", "dd", []⟩] }

theorem dm_c5_witness :
    generateChunkId (fun _ => "h") chunkPlainA =
      generateChunkId (fun _ => "h") chunkPlainB ∧
    (storeChunk (fun _ => "h") false {} chunkPlainA).1 =
      Except.ok (generateChunkId (fun _ => "h") chunkPlainA) ∧
    (storeChunk (fun _ => "h") false {} chunkPlainA).1 =
      (storeChunk (fun _ => "h") false storeWithDoc chunkPlainA).1 ∧
    storeChunk (fun _ => "h") false
        (storeChunk (fun _ => "h") false {} chunkPlainA).2 chunkPlainA =
      storeChunk (fun _ => "h") false {} chunkPlainA :=
  dm_c5_chunk_id_idempotent (fun _ => "h") chunkPlainA chunkPlainB {}
    storeWithDoc rfl rfl rfl

theorem dm_c9_amended_witness :
    (analyzePython (PyAst.node .ifStmt [])).complexity =
      mccabeAmended (PyAst.node .ifStmt []) ∧
    ((∀ n ∈ walkNodes (PyAst.node .ifStmt []), isFunctionDefNode n = false) →
      (analyzePython (PyAst.node .ifStmt [])).complexity = 0) :=
  dm_c9_amended_complexity (PyAst.node .ifStmt [])

end DM

